import Mathlib

/-!
Shallow embedding of the document/viewport engine of the `learn-text-editor`
repository (Rust), covering the grapheme line model (`src/view.rs`), the
document buffer (`src/editor/buffer.rs`), the terminal state machine and
render loop (`src/view/terminal.rs`) and the command decoder
(`src/view/terminal_command.rs`).  Rust `usize` arithmetic is modelled on
`Nat` with an explicit `2 ^ 64` cap where the source saturates or wraps.
Strings are modelled as `List Char`; the grapheme segmentation performed by
the external `unicode-segmentation` crate is modelled per Unicode scalar
value (each scalar is its own cluster), which agrees with the crate on the
ASCII and non-combining inputs quantified over in this development.
-/

/-- Number of values of the Rust `usize` type (64-bit target). -/
def USIZE : Nat := 2 ^ 64

/-- Rust `usize::saturating_add`, on the `Nat` model. -/
def satAdd (a b : Nat) : Nat := min (a + b) (USIZE - 1)

/-- Rust `usize` unchecked subtraction in release mode: two's-complement
wrap-around (`a.wrapping_sub b`); assumes `a b < USIZE`. -/
def usizeWrapSub (a b : Nat) : Nat := (a + (USIZE - b)) % USIZE

/-- Rust `char::is_control`: the C0 block, DEL, and the C1 block. -/
def rustIsControl (c : Char) : Bool :=
  c.toNat < 0x20 || c.toNat == 0x7F || (0x80 ≤ c.toNat && c.toNat ≤ 0x9F)

/-- Rust `char::is_whitespace`: the Unicode `White_Space` property
(this is what `str::trim` removes, so a one-scalar cluster `g` has
`g.trim().is_empty()` exactly when this holds). -/
def rustIsWhitespace (c : Char) : Bool :=
  let n := c.toNat
  (0x09 ≤ n && n ≤ 0x0D) || n == 0x20 || n == 0x85 || n == 0xA0 ||
  n == 0x1680 || (0x2000 ≤ n && n ≤ 0x200A) || n == 0x2028 || n == 0x2029 ||
  n == 0x202F || n == 0x205F || n == 0x3000

/-- Wide (2-cell) characters of the `unicode-width` crate, modelled on the
East Asian Wide / Fullwidth blocks (exact on every character this
development evaluates). -/
def isWideChar (c : Char) : Bool :=
  let n := c.toNat
  (0x1100 ≤ n && n ≤ 0x115F) || (0x2E80 ≤ n && n ≤ 0x303E) ||
  (0x3041 ≤ n && n ≤ 0x33FF) || (0x3400 ≤ n && n ≤ 0x4DBF) ||
  (0x4E00 ≤ n && n ≤ 0x9FFF) || (0xA000 ≤ n && n ≤ 0xA4CF) ||
  (0xAC00 ≤ n && n ≤ 0xD7A3) || (0xF900 ≤ n && n ≤ 0xFAFF) ||
  (0xFE30 ≤ n && n ≤ 0xFE4F) || (0xFF00 ≤ n && n ≤ 0xFF60) ||
  (0xFFE0 ≤ n && n ≤ 0xFFE6) || (0x20000 ≤ n && n ≤ 0x3FFFD)

/-- `UnicodeWidthStr::width` of a one-scalar cluster: control characters
measure 0, wide characters 2, everything else 1. -/
def charWidth (c : Char) : Nat :=
  if rustIsControl c then 0
  else if isWideChar c then 2
  else 1

/-- `GraphemeWidth` from `src/view.rs`: a rendered width of 1 or 2 cells. -/
inductive GraphemeWidth where
  | Half
  | Full
deriving DecidableEq, Repr

/-- Numeric cell count of a `GraphemeWidth` (the `Half => 1, Full => 2`
match used by `graphemes_width` and `Into<u16>`). -/
def GraphemeWidth.val : GraphemeWidth → Nat
  | .Half => 1
  | .Full => 2

/-- `TextFragment` from `src/view.rs`: one grapheme cluster with its
rendered width and optional substitution glyph. -/
structure TextFragment where
  grapheme : List Char
  rendered_width : GraphemeWidth
  replacement : Option Char
deriving DecidableEq, Repr

/-- `Line` from `src/view.rs`: an ordered sequence of text fragments. -/
structure Line where
  fragments : List TextFragment
deriving DecidableEq, Repr

/-- One fragment of `impl From<&str> for Line` (`src/view.rs:169`): width
collapses `0 | 1` to `Half` and anything else to `Full`; then the match
arms, in source order: a literal tab gets a space substitute; a positive
width blank cluster gets the visible-blank glyph; a zero-width single
control character gets the placeholder glyph. -/
def fragOfChar (c : Char) : TextFragment :=
  let w := charWidth c
  let rw := if w ≤ 1 then GraphemeWidth.Half else GraphemeWidth.Full
  if c = '\t' then { grapheme := [c], rendered_width := .Half, replacement := some ' ' }
  else if w > 0 && rustIsWhitespace c then
    { grapheme := [c], rendered_width := .Half, replacement := some '␣' }
  else if w == 0 && rustIsControl c then
    { grapheme := [c], rendered_width := .Half, replacement := some '▯' }
  else { grapheme := [c], rendered_width := rw, replacement := none }

/-- `impl From<&str> for Line` (`src/view.rs:169`): segment the text into
grapheme clusters (one per scalar in this model) and build fragments. -/
def Line.fromStr (s : List Char) : Line :=
  { fragments := s.map fragOfChar }

/-- `impl Display for Line` (`src/view.rs:232`): the raw text of a line is
the concatenation of its fragments' graphemes. -/
def Line.text (l : Line) : List Char :=
  (l.fragments.map TextFragment.grapheme).flatten

/-- `Line::grapheme_count`. -/
def Line.grapheme_count (l : Line) : Nat := l.fragments.length

/-- `Line::graphemes_width`: sum of the fragments' rendered cell widths. -/
def Line.graphemes_width (l : Line) : Nat :=
  (l.fragments.map (fun f => f.rendered_width.val)).sum

/-- Loop body of `Line::insert_char` (`src/view.rs:127`): walk the
fragments with their index, pushing the new character just before the
fragment whose index equals `at_`. -/
def insChars : List TextFragment → Nat → Nat → Char → List Char
  | [], _, _, _ => []
  | f :: rest, i, at_, c =>
      (if i = at_ then [c] else []) ++ f.grapheme ++ insChars rest (i + 1) at_ c

/-- `Line::insert_char` (`src/view.rs:127`): rebuild the text with the
character spliced in (appended when `at_` is past the last fragment) and
re-segment. -/
def Line.insert_char (l : Line) (c : Char) (at_ : Nat) : Line :=
  let result := insChars l.fragments 0 at_ c ++
    (if at_ ≥ l.fragments.length then [c] else [])
  { fragments := (Line.fromStr result).fragments }

/-- Loop body of `Line::delete` (`src/view.rs:145`): keep every fragment
whose index differs from `at_`. -/
def delChars : List TextFragment → Nat → Nat → List Char
  | [], _, _ => []
  | f :: rest, i, at_ =>
      (if i = at_ then [] else f.grapheme) ++ delChars rest (i + 1) at_

/-- `Line::delete` (`src/view.rs:145`): rebuild the text without the
fragment at `at_` and re-segment. -/
def Line.delete (l : Line) (at_ : Nat) : Line :=
  { fragments := (Line.fromStr (delChars l.fragments 0 at_)).fragments }

/-- `Line::append` (`src/view.rs:141`). -/
def Line.append (l other : Line) : Line :=
  { fragments := l.fragments ++ other.fragments }

/-- `Line::split` (`src/view.rs:158`): out-of-range returns an empty line,
otherwise split off the tail. -/
def Line.split (l : Line) (at_ : Nat) : Line × Line :=
  if at_ > l.fragments.length then (l, { fragments := [] })
  else ({ fragments := l.fragments.take at_ }, { fragments := l.fragments.drop at_ })

/-- Loop of `Line::get_visible_graphemes` (`src/view.rs:97`): walk the
fragments tracking the running cell position; stop past the window, emit
an ellipsis for a partially clipped unit, else the substitution glyph if
present, else the raw grapheme. -/
def visGo (start stop : Nat) : List TextFragment → Nat → List Char
  | [], _ => []
  | f :: rest, fragStart =>
      let fragEnd := satAdd fragStart f.rendered_width.val
      if fragStart > stop then []
      else
        (if fragEnd > start then
          (if fragStart < start ∨ fragEnd > stop then ['⋯']
           else match f.replacement with
             | some ch => [ch]
             | none => f.grapheme)
         else []) ++ visGo start stop rest fragEnd

/-- `Line::get_visible_graphemes` (`src/view.rs:97`): empty when the range
is empty, else the clipped/substituted window content. -/
def Line.get_visible_graphemes (l : Line) (start stop : Nat) : List Char :=
  if start ≥ stop then [] else visGo start stop l.fragments 0

/-- Per-unit rendered glyph, as selected inside `get_visible_graphemes`
(`src/view.rs:115`): the substitution glyph when present, otherwise the
raw grapheme text. -/
def TextFragment.glyph (f : TextFragment) : List Char :=
  match f.replacement with
  | some ch => [ch]
  | none => f.grapheme

/-- Concatenation of a line's per-unit rendered glyphs. -/
def Line.renderedText (l : Line) : List Char :=
  (l.fragments.map TextFragment.glyph).flatten

/-- `Location` from `src/view.rs`: absolute document position, measured in
graphemes. -/
structure Location where
  line_index : Nat
  grapheme_index : Nat
deriving DecidableEq, Repr

/-- `Position` from `src/view.rs`: screen-cell coordinate. -/
structure Position where
  x : Nat
  y : Nat
deriving DecidableEq, Repr

/-- `Size` from `src/view.rs`: viewport width and height in cells. -/
structure Size where
  width : Nat
  height : Nat
deriving DecidableEq, Repr

/-- `Location::to_position` (`src/view.rs:44`): subtract the scroll offset,
saturating at zero (which is exactly `Nat` subtraction). -/
def Location.to_position (l : Location) (scroll_offset : Location) : Position :=
  { x := l.grapheme_index - scroll_offset.grapheme_index,
    y := l.line_index - scroll_offset.line_index }

/-- Rust `str::lines`: split on newline characters.  `splitNl` is the raw
split; `""` gives one empty piece here and the wrapper drops a trailing
empty piece (no line after a final terminator) and strips a trailing
carriage return from each piece. -/
def splitNl : List Char → List (List Char)
  | [] => [[]]
  | c :: rest =>
      if c = '\n' then [] :: splitNl rest
      else
        match splitNl rest with
        | [] => [[c]]
        | p :: ps => (c :: p) :: ps

/-- Strip one trailing `'\r'` (the `\r\n` handling of `str::lines`). -/
def stripCr (l : List Char) : List Char :=
  if l.getLast? = some '\r' then l.dropLast else l

/-- Rust `str::lines` on the `List Char` model. -/
def rustLines (s : List Char) : List (List Char) :=
  let pieces := splitNl s
  let pieces := if pieces.getLast? = some [] then pieces.dropLast else pieces
  pieces.map stripCr

/-- `Buffer` from `src/editor/buffer.rs`: an ordered sequence of lines. -/
structure Buffer where
  lines : List Line
deriving DecidableEq, Repr

/-- `Buffer::new` (`src/editor/buffer.rs:9`): split the content on line
boundaries and build each line via the grapheme line model. -/
def Buffer.new (content : List Char) : Buffer :=
  { lines := (rustLines content).map Line.fromStr }

/-- `Buffer::line_count`. -/
def Buffer.line_count (b : Buffer) : Nat := b.lines.length

/-- `Buffer::insert_newline` (`src/editor/buffer.rs:19`): when
`after_index` addresses an existing line, insert the carried line (or an
empty line) right after it (`Vec::insert(after_index + 1, ..)`, written
here as take/drop); otherwise push it at the end. -/
def Buffer.insert_newline (b : Buffer) (after_index : Nat) (line : Option Line) : Buffer :=
  match b.lines[after_index]? with
  | some _ =>
      { lines := b.lines.take (after_index + 1) ++
          [line.getD (Line.fromStr [])] ++ b.lines.drop (after_index + 1) }
  | none => { lines := b.lines ++ [line.getD (Line.fromStr [])] }

/-- `Buffer::insert_char` (`src/editor/buffer.rs:29`): no-op past the
line count, append a fresh one-character line at the line count, else
splice into the addressed line. -/
def Buffer.insert_char (b : Buffer) (character : Char) (at_ : Location) : Buffer :=
  let height := b.lines.length
  if at_.line_index > height then b
  else if at_.line_index = height then
    { lines := b.lines ++ [Line.fromStr [character]] }
  else
    match b.lines[at_.line_index]? with
    | some line =>
        { lines := b.lines.set at_.line_index (line.insert_char character at_.grapheme_index) }
    | none => b

/-- `Buffer::delete` (`src/editor/buffer.rs:42`): at or past the end of a
line with a following line, merge the next line in (`Vec::remove` then
`append`); otherwise delete the single grapheme (the source's
`eprintln!` debug output is I/O only and not modelled; `saturating_add 1`
on a `Vec` index never saturates and is written `+ 1`). -/
def Buffer.delete (b : Buffer) (at_ : Location) : Buffer :=
  match b.lines[at_.line_index]? with
  | none => b
  | some line =>
      if at_.grapheme_index ≥ line.fragments.length ∧
          b.lines.length > at_.line_index + 1 then
        let next_line := (b.lines[at_.line_index + 1]?).getD { fragments := [] }
        { lines := (b.lines.eraseIdx (at_.line_index + 1)).set at_.line_index
            (line.append next_line) }
      else if at_.grapheme_index < line.fragments.length ∨
          at_.grapheme_index = line.fragments.length then
        { lines := b.lines.set at_.line_index (line.delete at_.grapheme_index) }
      else b

/-- `Direction` from `src/view/terminal_command.rs`. -/
inductive Direction where
  | Up | Down | Left | Right | PageUp | PageDown | Home | End
deriving DecidableEq, Repr

/-- `SpecialKey` from `src/view/terminal_command.rs`. -/
inductive SpecialKey where
  | Backspace | Delete | Enter | Tab | BackTab | CapsLock | Insert
deriving DecidableEq, Repr

/-- The `crossterm` `KeyCode` constructors the decoder inspects, plus two
codes it does not recognise (`Esc`, `Null`). -/
inductive KeyCode where
  | Backspace | Enter | Left | Right | Up | Down | Home | End
  | PageUp | PageDown | Tab | BackTab | Delete | Insert
  | F (n : Nat)
  | Char (c : Char)
  | CapsLock | Esc | Null
deriving DecidableEq, Repr

/-- The `crossterm` `KeyModifiers` bits the decoder reads
(`modifiers.contains(KeyModifiers::CONTROL)`). -/
structure KeyModifiers where
  shift : Bool
  control : Bool
  alt : Bool
deriving DecidableEq, Repr

/-- The `crossterm` events the decoder matches on: key press events,
resize events, and one representative unsupported event kind. -/
inductive CrossTermEvent where
  | Key (code : KeyCode) (modifiers : KeyModifiers)
  | Resize (width height : Nat)
  | FocusGained
deriving DecidableEq, Repr

/-- `TerminalCommand` from `src/view/terminal_command.rs`. -/
inductive TerminalCommand where
  | MoveCaret (d : Direction)
  | Resize (s : Size)
  | Quit
  | Unknown
  | OrdinaryChar (code : KeyCode)
  | FunctionKey (n : Nat)
  | SpecialKey (k : SpecialKey)
deriving DecidableEq, Repr

/-- `impl TryFrom<CrossTermEvent> for TerminalCommand`
(`src/view/terminal_command.rs:35`), arm for arm: the `Char('q')` guard on
the control modifier precedes the generic `Char(c)` arm, `F(n)` is guarded
by `1..=12`, unrecognised key codes fall through to `Unknown`, and
non-key, non-resize events are the `Err` case. -/
def TerminalCommand.tryFrom : CrossTermEvent → Except String TerminalCommand
  | .Key code modifiers =>
      match code with
      | .Left => .ok (.MoveCaret .Left)
      | .Right => .ok (.MoveCaret .Right)
      | .Up => .ok (.MoveCaret .Up)
      | .Down => .ok (.MoveCaret .Down)
      | .Home => .ok (.MoveCaret .Home)
      | .End => .ok (.MoveCaret .End)
      | .PageUp => .ok (.MoveCaret .PageUp)
      | .PageDown => .ok (.MoveCaret .PageDown)
      | .Char c =>
          if c = 'q' ∧ modifiers.control then .ok .Quit
          else .ok (.OrdinaryChar (.Char c))
      | .F n => if 1 ≤ n ∧ n ≤ 12 then .ok (.FunctionKey n) else .ok .Unknown
      | .Backspace => .ok (.SpecialKey .Backspace)
      | .Delete => .ok (.SpecialKey .Delete)
      | .Enter => .ok (.SpecialKey .Enter)
      | .Tab => .ok (.SpecialKey .Tab)
      | .BackTab => .ok (.SpecialKey .BackTab)
      | .CapsLock => .ok (.SpecialKey .CapsLock)
      | .Insert => .ok (.SpecialKey .Insert)
      | _ => .ok .Unknown
  | .Resize width height => .ok (.Resize { width := width, height := height })
  | _ => .error "Unsupported event for EditorCommand"

/-- `Terminal` from `src/view/terminal.rs`: the editor session state the
core mutates (the raw-mode/alternate-screen I/O of the constructor is not
modelled). -/
structure Terminal where
  buffer : Buffer
  needs_render : Bool
  size : Size
  location : Location
  scroll_offset : Location
deriving DecidableEq, Repr

/-- One axis of `Terminal::scroll_location_into_view`
(`src/view/terminal.rs:95`), shared verbatim by the vertical and
horizontal halves: reveal the target at the near edge when it is before
the offset, put it on the far visible edge when it is at or past
`offset + extent` (`saturating_sub` then `saturating_add(1)`), and report
whether the offset changed. -/
def scrollAdjust (target offset extent : Nat) : Nat × Bool :=
  if target < offset then (target, true)
  else if target ≥ satAdd offset extent then (satAdd (target - extent) 1, true)
  else (offset, false)

/-- `Terminal::scroll_location_into_view` (`src/view/terminal.rs:95`):
adjust both scroll axes against the caret location and viewport size,
setting `needs_render` on any change. -/
def Terminal.scrollLocationIntoView (t : Terminal) : Terminal :=
  let rowAdj := scrollAdjust t.location.line_index t.scroll_offset.line_index t.size.height
  let colAdj := scrollAdjust t.location.grapheme_index t.scroll_offset.grapheme_index t.size.width
  { t with
    scroll_offset := { line_index := rowAdj.1, grapheme_index := colAdj.1 },
    needs_render := if rowAdj.2 || colAdj.2 then true else t.needs_render }

/-- `Terminal::move_caret_to_location` (`src/view/terminal.rs:350`),
branch for branch (the trailing `flush` is I/O only).  Both `Left` ifs and
both `Right` ifs test the `col` captured before any mutation, as in the
source; `End` performs the source's unchecked `fragments.len() - 1`,
modelled as release-mode wrap-around. -/
def Terminal.moveCaret (t : Terminal) (direction : Direction) : Terminal :=
  let t' :=
    match t.buffer.lines[t.location.line_index]? with
    | none => t
    | some curr_line =>
        let row := t.location.line_index
        let col := t.location.grapheme_index
        match direction with
        | .Up =>
            if row > 0 then
              let line_index := row - 1
              let longest_col_in_line :=
                match t.buffer.lines[line_index]? with
                | some line => line.graphemes_width
                | none => 0
              let gi := if col > longest_col_in_line then longest_col_in_line else col
              { t with location := { line_index := line_index, grapheme_index := gi } }
            else
              { t with location := { t.location with line_index := 0 } }
        | .Down =>
            if row < t.buffer.line_count - 1 then
              let line_index := satAdd row 1
              let longest_col_in_line :=
                match t.buffer.lines[line_index]? with
                | some line => line.graphemes_width
                | none => 0
              let gi := if col > longest_col_in_line then longest_col_in_line else col
              { t with location := { line_index := line_index, grapheme_index := gi } }
            else t
        | .Left =>
            let t1 :=
              if col > 0 then
                { t with location := { t.location with grapheme_index := col - 1 } }
              else t
            if col = 0 ∧ row > 0 then
              let line_index := row - 1
              let gi :=
                match t.buffer.lines[line_index]? with
                | some prev_line => prev_line.fragments.length - 1
                | none => t1.location.grapheme_index
              { t1 with location := { line_index := line_index, grapheme_index := gi } }
            else t1
        | .Right =>
            let t1 :=
              if col < curr_line.graphemes_width - 1 then
                { t with location := { t.location with grapheme_index := satAdd col 1 } }
              else t
            if col ≥ curr_line.graphemes_width - 1 then
              match t.buffer.lines[satAdd row 1]? with
              | some _ =>
                  { t1 with location := { line_index := satAdd row 1, grapheme_index := 0 } }
              | none => t1
            else t1
        | .PageUp =>
            if row < t.size.height then
              { t with location := { t.location with line_index := 0 } }
            else
              { t with location := { t.location with line_index := row - t.size.height } }
        | .PageDown =>
            if t.buffer.line_count > satAdd row t.size.height then
              { t with location := { t.location with line_index := satAdd row t.size.height } }
            else
              { t with location := { t.location with line_index := t.buffer.line_count - 1 } }
        | .Home =>
            { t with location := { t.location with grapheme_index := 0 } }
        | .End =>
            { t with location :=
                { t.location with grapheme_index := usizeWrapSub curr_line.fragments.length 1 } }
  t'.scrollLocationIntoView

/-- `Terminal::handle_special_key` for `SpecialKey::Backspace`
(`src/view/terminal.rs:243`): within a line, remove the fragment left of
the caret (`Vec::remove`, in-range here) and move the caret left; at the
top-left of the document, only mark for redraw; at column 0 of a later
line, move the whole fragment list (`split_off(0)`) onto the previous
line, remove the emptied current line, and land the caret at the previous
line's former end. -/
def Terminal.handleBackspace (t : Terminal) : Terminal :=
  let current_caret_line := t.location.line_index
  let current_caret_col := t.location.grapheme_index
  match t.buffer.lines[current_caret_line]? with
  | none => t
  | some line =>
      if current_caret_col ≠ 0 then
        let line' : Line := { fragments := line.fragments.eraseIdx (current_caret_col - 1) }
        let t1 := { t with buffer := { lines := t.buffer.lines.set current_caret_line line' } }
        let t2 := t1.moveCaret .Left
        { t2 with needs_render := true }
      else if current_caret_line = 0 ∧ current_caret_col = 0 then
        { t with needs_render := true }
      else if current_caret_line ≠ 0 ∧ current_caret_col = 0 then
        let fragments_to_move := line.fragments
        let lines1 := t.buffer.lines.set current_caret_line { fragments := [] }
        let previous_line_index := current_caret_line - 1
        let lines2 :=
          match lines1[previous_line_index]? with
          | some previous_line =>
              lines1.set previous_line_index
                { fragments := previous_line.fragments ++ fragments_to_move }
          | none => lines1
        let lines3 := lines2.eraseIdx current_caret_line
        let gi :=
          match lines3[previous_line_index]? with
          | some prev_line => prev_line.fragments.length
          | none => 0
        { t with
          buffer := { lines := lines3 },
          location := { line_index := previous_line_index, grapheme_index := gi },
          needs_render := true }
      else t

/-- Modelled from the spec: the Cargo package name and version baked in
with `env!("CARGO_PKG_NAME")` / `env!("CARGO_PKG_VERSION")`
(`src/view/terminal.rs:17`); `Cargo.toml` is not part of the sources, the
spec only calls this the "name + version" banner. -/
def pkgNAME : List Char := "learn-text-editor".data

/-- Modelled from the spec: the Cargo package version (see `pkgNAME`). -/
def pkgVERSION : List Char := "0.1.0".data

/-- `Terminal::build_welcome_message` (`src/view/terminal.rs:75`): centre
the banner behind a `~`, then truncate to the viewport width (all
characters involved are ASCII, so Rust's byte-indexed `truncate(width)`
is a plain `take`). -/
def buildWelcomeMessage (width : Nat) : List Char :=
  let welcome_message := pkgNAME ++ " editor -- version ".data ++ pkgVERSION
  let x := (width - welcome_message.length) / 2
  let spaces := List.replicate (x - 1) ' '
  let welcome_message := '~' :: spaces ++ welcome_message
  welcome_message.take width

/-- One screen row of `Terminal::render` (`src/view/terminal.rs:491`):
an existing document line emits its visible window; a missing line emits
the welcome banner at row `height / 3` when the buffer has zero lines,
else the `~` filler. -/
def Terminal.renderRow (t : Terminal) (view_row : Nat) : List Char :=
  let abs_view_row := satAdd view_row t.scroll_offset.line_index
  match t.buffer.lines[abs_view_row]? with
  | some line =>
      let left := t.scroll_offset.grapheme_index
      let right :=
        if satAdd left t.size.width > line.graphemes_width then line.graphemes_width
        else satAdd left t.size.width
      line.get_visible_graphemes left right
  | none =>
      if view_row = t.size.height / 3 ∧ t.buffer.line_count = 0 then
        buildWelcomeMessage t.size.width
      else ['~']

/-- The strings printed by `Terminal::render` (`src/view/terminal.rs:491`),
one per screen row: nothing when the dirty flag is clear or the width is
zero (the source tests `width == 0 || width == 0`, never the height); the
caret moves and line clears around each print are I/O only. -/
def Terminal.renderOutput (t : Terminal) : List (List Char) :=
  if !t.needs_render then []
  else if t.size.width = 0 ∨ t.size.width = 0 then []
  else (List.range t.size.height).map t.renderRow

/-! Helper lemmas. -/

theorem fragOfChar_grapheme (c : Char) : (fragOfChar c).grapheme = [c] := by
  unfold fragOfChar
  dsimp only
  split_ifs <;> rfl

theorem text_fromStr (s : List Char) : (Line.fromStr s).text = s := by
  induction s with
  | nil => rfl
  | cons c rest ih =>
      simp only [Line.fromStr, Line.text, List.map_cons, List.flatten_cons,
        fragOfChar_grapheme] at *
      simpa using ih

theorem scroll_preserves_location (t : Terminal) :
    t.scrollLocationIntoView.location = t.location := rfl

theorem insChars_no_hit (fs : List TextFragment) (i at_ : Nat) (c : Char)
    (h : i + fs.length ≤ at_) :
    insChars fs i at_ c = (fs.map TextFragment.grapheme).flatten := by
  induction fs generalizing i with
  | nil => rfl
  | cons f rest ih =>
      have hne : i ≠ at_ := by simp at h; omega
      simp only [insChars, if_neg hne, List.map_cons, List.flatten_cons,
        List.nil_append]
      rw [ih (i + 1) (by simp at h ⊢; omega)]

theorem insertIdx_eq_take_cons_drop {α : Type} (l : List α) (a : α) (i : Nat)
    (h : i ≤ l.length) : l.insertIdx i a = l.take i ++ a :: l.drop i := by
  induction l generalizing i with
  | nil =>
      simp at h
      subst h
      simp [List.insertIdx]
  | cons x xs ih =>
      cases i with
      | zero => simp [List.insertIdx]
      | succ n => simp [List.insertIdx_succ_cons, ih n (by simpa using h)]

/-- C2 counterexample: the claim says a Buffer built from the empty text
holds exactly one empty Line; `Buffer::new` actually collects zero lines
from `"".lines()`. -/
theorem buffer_new_empty_one_line_cex : ¬ ((Buffer.new []).lines.length = 1) := by decide

/-- C2 (amended): constructing a Buffer from the empty string yields a
Buffer holding zero Lines, so the at-least-one-Line invariant does not
hold at construction. -/
theorem buffer_new_empty_zero_lines : (Buffer.new []).lines = [] := by decide

/-- C3 counterexample: on the one-line buffer `["ab"]` with the caret
position 1 inside the line, the claim predicts the split `["a", "b"]`;
`Buffer::insert_newline 0 none` actually leaves `"ab"` whole and inserts
an empty line after it. -/
theorem insert_newline_no_split_cex :
    ((Buffer.mk [Line.fromStr ['a', 'b']]).insert_newline 0 none).lines.map Line.text
        = [['a', 'b'], []] ∧
    ¬ (((Buffer.mk [Line.fromStr ['a', 'b']]).insert_newline 0 none).lines.map Line.text
        = [['a'], ['b']]) := by decide

/-- C3 (amended): `insert_newline` never splits content: when
`after_index` addresses an existing line it inserts the carried Line (an
empty Line when none is carried) immediately after that line, leaving the
addressed line's content intact; when `after_index` is past the last line
the new Line is appended at the end. -/
theorem insert_newline_inserts_carried_line (b : Buffer) (after_index : Nat)
    (line : Option Line) :
    (after_index < b.lines.length →
      (b.insert_newline after_index line).lines
          = b.lines.insertIdx (after_index + 1) (line.getD (Line.fromStr [])) ∧
      (b.insert_newline after_index line).lines[after_index]?
          = b.lines[after_index]?) ∧
    (b.lines.length ≤ after_index →
      (b.insert_newline after_index line).lines
          = b.lines ++ [line.getD (Line.fromStr [])]) := by
  constructor
  · intro hlt
    have hl : b.lines[after_index]? = some b.lines[after_index] :=
      List.getElem?_eq_getElem hlt
    constructor
    · simp only [Buffer.insert_newline, hl]
      rw [insertIdx_eq_take_cons_drop _ _ _ (by omega)]
      simp
    · simp only [Buffer.insert_newline, hl]
      rw [List.getElem?_append, if_pos (by simp; omega),
        List.getElem?_append, if_pos (by simp; omega),
        List.getElem?_take, if_pos (by omega), hl]
  · intro hge
    have hnone : b.lines[after_index]? = none := List.getElem?_eq_none hge
    simp only [Buffer.insert_newline, hnone]

/-- C3 witness. -/
theorem insert_newline_inserts_carried_line_witness :
    ((Buffer.mk [Line.fromStr ['a', 'b']]).insert_newline 0
        (some (Line.fromStr ['x']))).lines
      = [Line.fromStr ['a', 'b'], Line.fromStr ['x']] := by
  have h := (insert_newline_inserts_carried_line (Buffer.mk [Line.fromStr ['a', 'b']])
    0 (some (Line.fromStr ['x']))).1 (by decide)
  rw [h.1]
  decide

/-- C7: the `End` handler sets the caret's grapheme index to
`fragments.len() - 1` with an unchecked `usize` subtraction: on a
nonempty line this is the last grapheme, on an empty line it wraps to
`USIZE - 1`, so the handler is not total on empty lines. -/
theorem caret_end_wraps_on_empty_line (t : Terminal) (line : Line)
    (h : t.buffer.lines[t.location.line_index]? = some line)
    (hlt : line.fragments.length < USIZE) :
    (0 < line.fragments.length →
      (t.moveCaret .End).location.grapheme_index = line.fragments.length - 1) ∧
    (line.fragments.length = 0 →
      (t.moveCaret .End).location.grapheme_index = USIZE - 1) := by
  have hloc : (t.moveCaret .End).location.grapheme_index
      = usizeWrapSub line.fragments.length 1 := by
    simp [Terminal.moveCaret, h, scroll_preserves_location]
  rw [hloc]
  unfold usizeWrapSub USIZE at *
  constructor
  · intro hpos
    omega
  · intro hzero
    rw [hzero]
    omega

/-- C7 witness: on a buffer whose only line is empty, `End` leaves the
caret at grapheme index `2 ^ 64 - 1`. -/
theorem caret_end_wraps_on_empty_line_witness :
    ((Terminal.mk (Buffer.mk [Line.fromStr []]) false (Size.mk 10 10)
        (Location.mk 0 0) (Location.mk 0 0)).moveCaret .End).location.grapheme_index
      = USIZE - 1 := by
  have h := caret_end_wraps_on_empty_line
    (Terminal.mk (Buffer.mk [Line.fromStr []]) false (Size.mk 10 10)
      (Location.mk 0 0) (Location.mk 0 0)) (Line.fromStr []) rfl (by decide)
  exact h.2 rfl

/-- C9: the command decoder is a pure classification: control-`q` decodes
to `Quit` (in particular not to `OrdinaryChar`), a character event not
matching the reserved control-`q` binding decodes to `OrdinaryChar`, and
unrecognised key events (here `Esc`, `Null`, and an out-of-range function
key) decode to `Unknown`. -/
theorem decoder_classification :
    (∀ m : KeyModifiers, m.control = true →
      TerminalCommand.tryFrom (.Key (.Char 'q') m) = .ok .Quit) ∧
    (∀ (c : Char) (m : KeyModifiers), ¬ (c = 'q' ∧ m.control = true) →
      TerminalCommand.tryFrom (.Key (.Char c) m) = .ok (.OrdinaryChar (.Char c))) ∧
    (∀ m : KeyModifiers,
      TerminalCommand.tryFrom (.Key .Esc m) = .ok .Unknown ∧
      TerminalCommand.tryFrom (.Key .Null m) = .ok .Unknown ∧
      TerminalCommand.tryFrom (.Key (.F 13) m) = .ok .Unknown) := by
  refine ⟨?_, ?_, ?_⟩
  · intro m hm
    simp [TerminalCommand.tryFrom, hm]
  · intro c m hcm
    simp only [TerminalCommand.tryFrom]
    rw [if_neg]
    intro hand
    exact hcm ⟨hand.1, hand.2⟩
  · intro m
    exact ⟨rfl, rfl, rfl⟩

/-- C9 witness. -/
theorem decoder_classification_witness :
    TerminalCommand.tryFrom (.Key (.Char 'q') (KeyModifiers.mk false true false))
        = .ok .Quit ∧
    TerminalCommand.tryFrom (.Key (.Char 'a') (KeyModifiers.mk false false false))
        = .ok (.OrdinaryChar (.Char 'a')) := by
  exact ⟨decoder_classification.1 (KeyModifiers.mk false true false) rfl,
    decoder_classification.2.1 'a' (KeyModifiers.mk false false false) (by simp)⟩

/-- C10: `Line::insert_char` at a grapheme index at or past the grapheme
count appends the character at the end (it is never dropped), and the
resulting fragments are exactly the re-segmentation of the concatenated
text. -/
theorem line_insert_char_append_at_end (l : Line) (c : Char) (at_ : Nat)
    (h : l.fragments.length ≤ at_) :
    (l.insert_char c at_).text = l.text ++ [c] ∧
    (l.insert_char c at_).fragments = (Line.fromStr (l.text ++ [c])).fragments := by
  have hresult : insChars l.fragments 0 at_ c ++
      (if at_ ≥ l.fragments.length then [c] else []) = l.text ++ [c] := by
    rw [insChars_no_hit l.fragments 0 at_ c (by omega), if_pos h]
    rfl
  constructor
  · show (Line.fromStr _).text = _
    rw [hresult, text_fromStr]
  · show (Line.fromStr _).fragments = _
    rw [hresult]

/-- C10 witness. -/
theorem line_insert_char_append_at_end_witness :
    ((Line.fromStr ['a', 'b']).insert_char 'z' 5).text = ['a', 'b', 'z'] := by
  have h := line_insert_char_append_at_end (Line.fromStr ['a', 'b']) 'z' 5 (by decide)
  rw [h.1]
  decide

theorem fragOfChar_printable (c : Char) (h1 : 0x21 ≤ c.toNat) (h2 : c.toNat ≤ 0x7E) :
    fragOfChar c = { grapheme := [c], rendered_width := .Half, replacement := none } := by
  have hctrl : rustIsControl c = false := by
    unfold rustIsControl
    simp only [Bool.or_eq_false_iff, Bool.and_eq_false_iff, decide_eq_false_iff_not,
      beq_eq_false_iff_ne, ne_eq]
    omega
  have hws : rustIsWhitespace c = false := by
    unfold rustIsWhitespace
    simp only [Bool.or_eq_false_iff, Bool.and_eq_false_iff, decide_eq_false_iff_not,
      beq_eq_false_iff_ne, ne_eq]
    omega
  have hwide : isWideChar c = false := by
    unfold isWideChar
    simp only [Bool.or_eq_false_iff, Bool.and_eq_false_iff, decide_eq_false_iff_not,
      beq_eq_false_iff_ne, ne_eq]
    omega
  have htab : ¬ (c = '\t') := by
    intro hc
    subst hc
    exact absurd h1 (by decide)
  simp [fragOfChar, charWidth, hctrl, hws, hwide, htab]

/-- C5 counterexample: a space is printable ASCII (`0x20`) and not a
control character, yet its rendered glyph is the substitution `'␣'`, so
re-joining the rendered glyphs of `Line::from(" ")` does not reproduce
the text. -/
theorem rendered_text_space_cex :
    (Line.fromStr [' ']).renderedText = ['␣'] ∧
    ¬ ((Line.fromStr [' ']).renderedText = [' ']) := by decide

/-- C5 (amended): for text of printable ASCII characters excluding blanks
(code points `0x21`–`0x7E`), building a Line and concatenating each
grapheme unit's rendered glyph (substitution glyph when present, raw text
otherwise) reproduces the original text exactly; a space is substituted
and breaks the round trip. -/
theorem rendered_text_roundtrip (s : List Char)
    (h : ∀ c ∈ s, 0x21 ≤ c.toNat ∧ c.toNat ≤ 0x7E) :
    (Line.fromStr s).renderedText = s := by
  induction s with
  | nil => rfl
  | cons c rest ih =>
      have hc := h c (by simp)
      have hrest := ih (fun x hx => h x (List.mem_cons_of_mem _ hx))
      simp only [Line.fromStr, Line.renderedText, List.map_cons, List.flatten_cons] at hrest ⊢
      rw [fragOfChar_printable c hc.1 hc.2]
      simpa [TextFragment.glyph] using hrest

/-- C5 witness. -/
theorem rendered_text_roundtrip_witness :
    (Line.fromStr ['a', 'b', 'c']).renderedText = ['a', 'b', 'c'] :=
  rendered_text_roundtrip ['a', 'b', 'c'] (by decide)

/-- C6 counterexample: with a single line holding one Full-width grapheme
(`'日'`, rendered width 2), the caret at grapheme index 0 is at the last
grapheme of the last line, yet `CaretMove(Right)` moves it to index 1,
because the source compares the grapheme index against the line's
rendered width rather than its grapheme count. -/
theorem caret_right_fullwidth_cex :
    ((Terminal.mk (Buffer.mk [Line.fromStr ['日']]) false (Size.mk 100 100)
        (Location.mk 0 0) (Location.mk 0 0)).moveCaret .Right).location
      = Location.mk 0 1 ∧
    ¬ (((Terminal.mk (Buffer.mk [Line.fromStr ['日']]) false (Size.mk 100 100)
        (Location.mk 0 0) (Location.mk 0 0)).moveCaret .Right).location
      = Location.mk 0 0) := by decide

/-- C6 (amended): boundary moves are no-ops: `CaretMove(Left)` at
`Location{0,0}` leaves the Location unchanged; `CaretMove(Right)` at the
last grapheme of the last line leaves the Location unchanged provided
every grapheme of that line is Half-width (rendered width = grapheme
count — with a Full-width grapheme present the caret does move); and
`Backspace` at `Location{0,0}` leaves the Buffer unchanged. -/
theorem boundary_moves_noops :
    (∀ t : Terminal, t.location = Location.mk 0 0 →
      (t.moveCaret .Left).location = t.location) ∧
    (∀ (t : Terminal) (line : Line),
      t.buffer.lines.length < USIZE →
      t.buffer.lines[t.location.line_index]? = some line →
      t.location.line_index = t.buffer.lines.length - 1 →
      line.fragments ≠ [] →
      line.graphemes_width = line.fragments.length →
      t.location.grapheme_index = line.fragments.length - 1 →
      (t.moveCaret .Right).location = t.location) ∧
    (∀ t : Terminal, t.location = Location.mk 0 0 →
      t.handleBackspace.buffer = t.buffer) := by
  refine ⟨?_, ?_, ?_⟩
  · intro t hloc
    unfold Terminal.moveCaret
    rw [scroll_preserves_location]
    cases hmatch : t.buffer.lines[t.location.line_index]? with
    | none => rfl
    | some line => simp [hloc]
  · intro t line hlen hline hlast hne hhalf hgi
    have hfrag : 0 < line.fragments.length := List.length_pos.mpr hne
    have hpos : 0 < t.buffer.lines.length := by
      rcases Nat.eq_zero_or_pos t.buffer.lines.length with h0 | h0
      · rw [List.length_eq_zero.mp h0] at hline
        simp at hline
      · exact h0
    have hrow1 : satAdd t.location.line_index 1 = t.buffer.lines.length := by
      unfold satAdd USIZE
      unfold USIZE at hlen
      omega
    have hnone : t.buffer.lines[satAdd t.location.line_index 1]? = none := by
      rw [hrow1]
      exact List.getElem?_eq_none le_rfl
    unfold Terminal.moveCaret
    rw [scroll_preserves_location, hline]
    simp [hnone, hgi, hhalf, lt_self_iff_false]
  · intro t hloc
    have h0 : t.location.line_index = 0 := by rw [hloc]
    have h0c : t.location.grapheme_index = 0 := by rw [hloc]
    unfold Terminal.handleBackspace
    rw [h0]
    cases hmatch : t.buffer.lines[0]? with
    | none => simp [hmatch]
    | some line => simp [hmatch, h0, h0c]

/-- C6 witness. -/
theorem boundary_moves_noops_witness :
    ((Terminal.mk (Buffer.mk [Line.fromStr ['a', 'b']]) false (Size.mk 10 10)
        (Location.mk 0 0) (Location.mk 0 0)).moveCaret .Left).location
      = Location.mk 0 0 ∧
    ((Terminal.mk (Buffer.mk [Line.fromStr ['a', 'b']]) false (Size.mk 10 10)
        (Location.mk 0 1) (Location.mk 0 0)).moveCaret .Right).location
      = Location.mk 0 1 := by
  constructor
  · exact boundary_moves_noops.1 _ rfl
  · exact boundary_moves_noops.2.1 _ (Line.fromStr ['a', 'b']) (by decide) rfl
      (by decide) (by decide) (by decide) (by decide)

/-- C8 counterexample: the buffer is a single empty line and the viewport
is 10×3, so screen row 1 = height/3 maps past the end of the buffer; the
claim predicts the centred banner there, but `render` emits the `~`
filler because its banner condition is `line_count() == 0`, which a
one-line buffer never satisfies. -/
theorem render_banner_single_empty_line_cex :
    (Terminal.mk (Buffer.mk [Line.fromStr []]) true (Size.mk 10 3)
        (Location.mk 0 0) (Location.mk 0 0)).renderOutput[1]? = some ['~'] ∧
    ¬ (['~'] = buildWelcomeMessage 10) := by decide

/-- C8 (amended): during render, every screen row whose mapped document
line does not exist emits the `~` filler row, except at screen row
`height/3` when the buffer holds zero lines, where the centred
name-and-version banner is emitted instead; the banner is truncated to
the viewport width. -/
theorem render_missing_line_rows (t : Terminal) (view_row : Nat)
    (hd : t.needs_render = true) (hw : 0 < t.size.width)
    (hr : view_row < t.size.height)
    (hmiss : t.buffer.lines[satAdd view_row t.scroll_offset.line_index]? = none) :
    t.renderOutput[view_row]? = some
      (if view_row = t.size.height / 3 ∧ t.buffer.line_count = 0 then
        buildWelcomeMessage t.size.width
      else ['~']) ∧
    (buildWelcomeMessage t.size.width).length ≤ t.size.width := by
  constructor
  · unfold Terminal.renderOutput
    rw [hd]
    rw [if_neg (by simp), if_neg (by omega)]
    rw [List.getElem?_map, List.getElem?_range hr]
    simp only [Terminal.renderRow, Option.map_some', hmiss]
  · unfold buildWelcomeMessage
    simp

/-- C8 witness: on a zero-line buffer with a 10×3 viewport, screen row 1
(`height/3`) gets the banner and screen row 0 gets the filler. -/
theorem render_missing_line_rows_witness :
    (Terminal.mk (Buffer.mk []) true (Size.mk 10 3)
        (Location.mk 0 0) (Location.mk 0 0)).renderOutput[1]?
      = some (buildWelcomeMessage 10) ∧
    (Terminal.mk (Buffer.mk []) true (Size.mk 10 3)
        (Location.mk 0 0) (Location.mk 0 0)).renderOutput[0]? = some ['~'] := by
  constructor
  · have h := render_missing_line_rows
      (Terminal.mk (Buffer.mk []) true (Size.mk 10 3)
        (Location.mk 0 0) (Location.mk 0 0)) 1 rfl (by decide) (by decide) (by decide)
    rw [h.1]
    decide
  · have h := render_missing_line_rows
      (Terminal.mk (Buffer.mk []) true (Size.mk 10 3)
        (Location.mk 0 0) (Location.mk 0 0)) 0 rfl (by decide) (by decide) (by decide)
    rw [h.1]
    decide

theorem scrollAdjust_spec (target offset extent : Nat) (hx : 0 < extent)
    (ht : target < USIZE) (hof : offset + extent < USIZE) :
    (scrollAdjust target offset extent).1 ≤ target ∧
    target < (scrollAdjust target offset extent).1 + extent ∧
    ∀ o : Nat, o ≤ target → target < o + extent →
      Nat.dist offset (scrollAdjust target offset extent).1 ≤ Nat.dist offset o := by
  unfold scrollAdjust satAdd USIZE at *
  simp only [Nat.min_def]
  split_ifs with h1 h2 h3 h4 h5
  all_goals refine ⟨by omega, by omega, fun o ho1 ho2 => ?_⟩
  all_goals simp only [Nat.dist] at *
  all_goals omega

/-- C1: after `scroll_location_into_view`, the caret location is
untouched, the caret's line index lies in `[offsetRow, offsetRow+height)`
and its grapheme index in `[offsetCol, offsetCol+width)`, and on each
axis the new offset is at minimal distance from the old one among all
offsets that re-admit the caret (the offset moves exactly enough, never
further).  The hypotheses bound the inputs by `usize` and rule out
`offset + extent` overflow, which holds for every reachable state since
viewport dimensions are `u16` casts and offsets index a `Vec`. -/
theorem scroll_into_view_spec (t : Terminal)
    (hw : 0 < t.size.width) (hh : 0 < t.size.height)
    (hrow : t.location.line_index < USIZE)
    (hcol : t.location.grapheme_index < USIZE)
    (hrowOf : t.scroll_offset.line_index + t.size.height < USIZE)
    (hcolOf : t.scroll_offset.grapheme_index + t.size.width < USIZE) :
    t.scrollLocationIntoView.location = t.location ∧
    t.scrollLocationIntoView.scroll_offset.line_index ≤ t.location.line_index ∧
    t.location.line_index
        < t.scrollLocationIntoView.scroll_offset.line_index + t.size.height ∧
    t.scrollLocationIntoView.scroll_offset.grapheme_index ≤ t.location.grapheme_index ∧
    t.location.grapheme_index
        < t.scrollLocationIntoView.scroll_offset.grapheme_index + t.size.width ∧
    (∀ o : Nat, o ≤ t.location.line_index →
      t.location.line_index < o + t.size.height →
      Nat.dist t.scroll_offset.line_index
          t.scrollLocationIntoView.scroll_offset.line_index ≤
        Nat.dist t.scroll_offset.line_index o) ∧
    (∀ o : Nat, o ≤ t.location.grapheme_index →
      t.location.grapheme_index < o + t.size.width →
      Nat.dist t.scroll_offset.grapheme_index
          t.scrollLocationIntoView.scroll_offset.grapheme_index ≤
        Nat.dist t.scroll_offset.grapheme_index o) := by
  have hrowSpec := scrollAdjust_spec t.location.line_index t.scroll_offset.line_index
    t.size.height hh hrow hrowOf
  have hcolSpec := scrollAdjust_spec t.location.grapheme_index
    t.scroll_offset.grapheme_index t.size.width hw hcol hcolOf
  exact ⟨rfl, hrowSpec.1, hrowSpec.2.1, hcolSpec.1, hcolSpec.2.1,
    hrowSpec.2.2, hcolSpec.2.2⟩

/-- C1 witness: caret at line 12 with a height-5 viewport scrolled at
line 0 ends with the caret on the last visible row (offset row 8). -/
theorem scroll_into_view_spec_witness :
    (Terminal.mk (Buffer.mk []) false (Size.mk 5 5)
        (Location.mk 12 0) (Location.mk 0 0)).scrollLocationIntoView.scroll_offset.line_index
      ≤ 12 ∧
    (12 : Nat) <
      (Terminal.mk (Buffer.mk []) false (Size.mk 5 5)
        (Location.mk 12 0) (Location.mk 0 0)).scrollLocationIntoView.scroll_offset.line_index
        + 5 := by
  have h := scroll_into_view_spec
    (Terminal.mk (Buffer.mk []) false (Size.mk 5 5)
      (Location.mk 12 0) (Location.mk 0 0)) (by decide) (by decide) (by decide) (by decide)
    (by decide) (by decide)
  exact ⟨h.2.1, h.2.2.1⟩

theorem insChars_map (s : List Char) (c : Char) (i at_ : Nat) :
    insChars (s.map fragOfChar) i at_ c =
      if i ≤ at_ ∧ at_ - i < s.length then
        s.take (at_ - i) ++ c :: s.drop (at_ - i)
      else s := by
  induction s generalizing i with
  | nil => simp [insChars]
  | cons x rest ih =>
      simp only [List.map_cons, insChars, fragOfChar_grapheme, List.length_cons]
      by_cases hi : i = at_
      · subst hi
        rw [if_pos rfl, ih (i + 1), if_neg (by omega), if_pos (by omega)]
        simp
      · rw [if_neg hi, ih (i + 1)]
        by_cases hc : i + 1 ≤ at_ ∧ at_ - (i + 1) < rest.length
        · rw [if_pos hc, if_pos (by omega)]
          have h1 : at_ - i = (at_ - (i + 1)) + 1 := by omega
          rw [h1, List.take_succ_cons, List.drop_succ_cons]
          simp
        · rw [if_neg hc, if_neg (by omega)]
          simp
  
theorem delChars_map (s : List Char) (i at_ : Nat) :
    delChars (s.map fragOfChar) i at_ =
      if i ≤ at_ ∧ at_ - i < s.length then
        s.take (at_ - i) ++ s.drop (at_ - i + 1)
      else s := by
  induction s generalizing i with
  | nil => simp [delChars]
  | cons x rest ih =>
      simp only [List.map_cons, delChars, fragOfChar_grapheme, List.length_cons]
      by_cases hi : i = at_
      · subst hi
        rw [if_pos rfl, ih (i + 1), if_neg (by omega), if_pos (by omega)]
        simp
      · rw [if_neg hi, ih (i + 1)]
        by_cases hc : i + 1 ≤ at_ ∧ at_ - (i + 1) < rest.length
        · rw [if_pos hc, if_pos (by omega)]
          have h1 : at_ - i = (at_ - (i + 1)) + 1 := by omega
          rw [h1, List.take_succ_cons, List.drop_succ_cons]
          simp
        · rw [if_neg hc, if_neg (by omega)]
          simp

theorem fromStr_insert_char (s : List Char) (c : Char) (gi : Nat)
    (h : gi ≤ s.length) :
    (Line.fromStr s).insert_char c gi
      = Line.fromStr (s.take gi ++ c :: s.drop gi) := by
  unfold Line.insert_char
  simp only [Line.fromStr, List.length_map]
  rw [insChars_map]
  rcases eq_or_lt_of_le h with heq | hlt
  · rw [if_neg (by omega), if_pos (by omega)]
    subst heq
    simp
  · rw [if_pos (by omega), if_neg (by omega)]
    simp

theorem fromStr_delete (u : List Char) (gi : Nat) (h : gi < u.length) :
    (Line.fromStr u).delete gi = Line.fromStr (u.take gi ++ u.drop (gi + 1)) := by
  unfold Line.delete
  simp only [Line.fromStr]
  rw [delChars_map, if_pos (by omega)]
  simp

theorem set_self_of_getElem {α : Type} (l : List α) (i : Nat) (h : i < l.length) :
    l.set i l[i] = l := by
  apply List.ext_getElem?
  intro n
  rw [List.getElem?_set]
  split
  · rename_i heq
    subst heq
    simp [List.getElem?_eq_getElem h]
  · rfl

/-- C4: in the per-scalar grapheme model no character merges with a
neighbouring cluster, so the claim's "not a line-merge trigger" side
condition is vacuous and the inverse law holds for every character: for
an in-bounds Location in a Buffer whose lines are segmentations of their
own text (true of every buffer the editor constructs), deleting at L
right after inserting at L restores the original Buffer exactly, hence
every line's text and character count. -/
theorem insert_then_delete_restores (b : Buffer) (L : Location) (c : Char)
    (line : Line)
    (hwf : ∀ l ∈ b.lines, l = Line.fromStr l.text)
    (hline : b.lines[L.line_index]? = some line)
    (hgi : L.grapheme_index ≤ line.fragments.length) :
    (b.insert_char c L).delete L = b := by
  have hlt : L.line_index < b.lines.length := by
    by_contra hge
    rw [List.getElem?_eq_none (by omega)] at hline
    exact Option.noConfusion hline
  have hEq : b.lines[L.line_index] = line := by
    have hg := List.getElem?_eq_getElem hlt
    rw [hline] at hg
    exact (Option.some_inj.mp hg).symm
  have hmem : line ∈ b.lines := hEq ▸ List.getElem_mem hlt
  have hlineWF : line = Line.fromStr line.text := hwf line hmem
  have hfl : line.fragments.length = line.text.length := by
    conv_lhs => rw [hlineWF]
    simp [Line.fromStr]
  have hgi' : L.grapheme_index ≤ line.text.length := by omega
  have htTake : (line.text.take L.grapheme_index).length = L.grapheme_index := by
    simp [hgi']
  have hins : b.insert_char c L = Buffer.mk (b.lines.set L.line_index
      (Line.fromStr (line.text.take L.grapheme_index ++
        c :: line.text.drop L.grapheme_index))) := by
    unfold Buffer.insert_char
    rw [if_neg (by omega), if_neg (by omega)]
    simp only [hline]
    conv_lhs => rw [hlineWF]
    rw [fromStr_insert_char line.text c L.grapheme_index hgi']
  set t := line.text.take L.grapheme_index ++ c :: line.text.drop L.grapheme_index
    with ht
  have htLen : t.length = line.text.length + 1 := by
    rw [ht]
    simp [hgi']
    omega
  have hflt : (Line.fromStr t).fragments.length = t.length := by
    simp [Line.fromStr]
  have hlines1 : (b.lines.set L.line_index (Line.fromStr t))[L.line_index]?
      = some (Line.fromStr t) := by
    simp [List.getElem?_set, hlt]
  have htTakeEq : t.take L.grapheme_index = line.text.take L.grapheme_index := by
    rw [ht, List.take_append_eq_append_take, htTake]
    simp [htTake]
  have htDropEq : t.drop (L.grapheme_index + 1) = line.text.drop L.grapheme_index := by
    rw [ht, List.drop_append_eq_append_drop, htTake]
    simp [htTake]
  rw [hins]
  unfold Buffer.delete
  simp only [hlines1]
  rw [if_neg (by rw [hflt, htLen]; omega), if_pos (Or.inl (by rw [hflt, htLen]; omega))]
  rw [fromStr_delete t L.grapheme_index (by rw [htLen]; omega)]
  rw [htTakeEq, htDropEq, List.take_append_drop, ← hlineWF]
  rw [List.set_set, ← hEq, set_self_of_getElem b.lines L.line_index hlt]

/-- C4 witness. -/
theorem insert_then_delete_restores_witness :
    (((Buffer.mk [Line.fromStr ['a', 'b']]).insert_char 'x'
        (Location.mk 0 1)).delete (Location.mk 0 1))
      = Buffer.mk [Line.fromStr ['a', 'b']] := by
  exact insert_then_delete_restores (Buffer.mk [Line.fromStr ['a', 'b']])
    (Location.mk 0 1) 'x' (Line.fromStr ['a', 'b']) (by decide) rfl (by decide)
